import Mathlib

/-!
Verification of the session dispatch engine of the pgp-disc repository.

The Rust sources are shallowly embedded as follows:

* Rust `&str` / `String` values are modelled as `List Char`; `str::find`
  returns the first character index at which the pattern occurs (the Rust
  function returns a byte index; for the structural properties proved here
  the two coincide up to the monotone byte/char reindexing).  `str::trim`,
  `split_whitespace`, `split`, `lines` and `u64::from_str` are modelled
  directly below.  Unicode special-casing (multi-char lowercasing,
  non-ASCII whitespace classes) is simplified to the per-`Char`
  operations; all claims and inputs considered are ASCII.
* The SHA-256 digest used by `pgp_block_id` (the `sha2` crate) is
  implemented in full over byte lists (`Nat` values below 256) and has
  been checked against the standard test vectors.
* The external collaborators (the `gpg` binary and the Discord transport)
  are modelled as a `World` record of oracle responses; every invocation
  of an external operation is recorded in an `ExtCall` trace so that
  claims about which calls happen can be stated.
* ANSI colour codes and wall-clock timestamps in the rendered output are
  presentation effects and are omitted from the rendered strings; the
  structure (which line is pushed when) is preserved.
-/

/-- Rust strings are modelled as lists of characters. -/
abbrev Str := List Char

/-- Convert a Lean string literal into the `Str` model. -/
def str (s : String) : Str := s.toList

/-- Model of Rust `str::find` for a substring pattern: the first index `i`
such that `pat` is a prefix of `s` dropped at `i`, if any. -/
def findSub : Str → Str → Option Nat
  | s, pat =>
    if pat.isPrefixOf s then some 0
    else
      match s with
      | [] => none
      | _ :: t => (findSub t pat).map (· + 1)

/-- The pattern `pat` occurs in `s` at index `i`. -/
def occursAt (pat s : Str) (i : Nat) : Prop := pat.isPrefixOf (s.drop i) = true

/-- The pattern `pat` occurs in `s` at index `i` and at no earlier index. -/
def firstOccurAt (pat s : Str) (i : Nat) : Prop :=
  occursAt pat s i ∧ ∀ j, j < i → ¬ occursAt pat s j

/-- The pattern `pat` occurs in `s` at index `j`, with `start ≤ j`, and at
no earlier index that is still `≥ start`. -/
def firstOccurFrom (pat s : Str) (start j : Nat) : Prop :=
  start ≤ j ∧ occursAt pat s j ∧ ∀ k, k < j → start ≤ k → ¬ occursAt pat s k

/-- Model of Rust `str::contains` for substring patterns. -/
def containsSub (s pat : Str) : Bool := (findSub s pat).isSome

/-- Model of Rust `str::trim` (leading and trailing whitespace removed). -/
def rustTrim (s : Str) : Str :=
  ((s.dropWhile Char.isWhitespace).reverse.dropWhile Char.isWhitespace).reverse

/-- Auxiliary loop of `splitWs`: `cur` holds the (reversed) current token. -/
def splitWsGo : Str → Str → List Str
  | [], cur => if cur = [] then [] else [cur.reverse]
  | c :: rest, cur =>
    if c.isWhitespace then
      if cur = [] then splitWsGo rest [] else cur.reverse :: splitWsGo rest []
    else splitWsGo rest (c :: cur)

/-- Model of Rust `str::split_whitespace` (empty tokens discarded). -/
def splitWs (s : Str) : List Str := splitWsGo s []

/-- Model of Rust `str::split` on a single separator character: always
yields one part more than the number of separators. -/
def splitOnChar (sep : Char) : Str → List Str
  | [] => [[]]
  | c :: rest =>
    let r := splitOnChar sep rest
    if c = sep then [] :: r
    else
      match r with
      | [] => [[c]]
      | h :: t => (c :: h) :: t

/-- Drop one trailing carriage return, as Rust `str::lines` does for lines
terminated by a CRLF sequence. -/
def stripCR (l : Str) : Str := if l.getLast? = some '\r' then l.dropLast else l

/-- Model of Rust `str::lines`: split on newline; every line terminated by
a newline has a trailing CR stripped; a final unterminated fragment is kept
as-is, and a trailing newline does not produce an empty final line. -/
def rustLines (s : Str) : List Str :=
  let parts := splitOnChar '\n' s
  let init := parts.dropLast.map stripCR
  match parts.getLast? with
  | none => init
  | some [] => init
  | some lastPart => init ++ [lastPart]

/-- Join tokens with single spaces, as `Vec::join(" ")` does. -/
def joinSp (parts : List Str) : Str :=
  match parts with
  | [] => []
  | p :: rest => rest.foldl (fun acc q => acc ++ [' '] ++ q) p

/-- Model of Rust `u64::from_str`: optional leading plus sign, at least one
digit, all digits, and the value must fit in 64 bits. -/
def parse_u64 (s : Str) : Option Nat :=
  let digits := match s with
    | '+' :: rest => rest
    | _ => s
  if digits.isEmpty || !digits.all Char.isDigit then none
  else
    let n := digits.foldl (fun acc c => acc * 10 + (c.toNat - 48)) 0
    if n < 18446744073709551616 then some n else none

/-- Decimal rendering of a natural number, as `u64`/`usize` display. -/
def natChars (n : Nat) : Str := (Nat.repr n).toList

/-- Truncate to a 32-bit word. -/
def w32 (x : Nat) : Nat := x % 4294967296

/-- Rotate a 32-bit word right by the given count. -/
def rotr32 (n x : Nat) : Nat := w32 ((x >>> n) ||| (x <<< (32 - n)))

/-- SHA-256 big sigma-0. -/
def bsig0 (x : Nat) : Nat := (rotr32 2 x) ^^^ (rotr32 13 x) ^^^ (rotr32 22 x)

/-- SHA-256 big sigma-1. -/
def bsig1 (x : Nat) : Nat := (rotr32 6 x) ^^^ (rotr32 11 x) ^^^ (rotr32 25 x)

/-- SHA-256 small sigma-0. -/
def ssig0 (x : Nat) : Nat := (rotr32 7 x) ^^^ (rotr32 18 x) ^^^ (x >>> 3)

/-- SHA-256 small sigma-1. -/
def ssig1 (x : Nat) : Nat := (rotr32 17 x) ^^^ (rotr32 19 x) ^^^ (x >>> 10)

/-- SHA-256 choice function (the complement is taken within 32 bits). -/
def chFn (x y z : Nat) : Nat := (x &&& y) ^^^ ((4294967295 - w32 x) &&& z)

/-- SHA-256 majority function. -/
def majFn (x y z : Nat) : Nat := (x &&& y) ^^^ (x &&& z) ^^^ (y &&& z)

/-- The 64 SHA-256 round constants of FIPS 180-4, written in decimal:
the first 32 fractional bits of the cube roots of the first 64 primes. -/
def shaK : List Nat :=
  [1116352408, 1899447441, 3049323471, 3921009573,
   961987163, 1508970993, 2453635748, 2870763221,
   3624381080, 310598401, 607225278, 1426881987,
   1925078388, 2162078206, 2614888103, 3248222580,
   3835390401, 4022224774, 264347078, 604807628,
   770255983, 1249150122, 1555081692, 1996064986,
   2554220882, 2821834349, 2952996808, 3210313671,
   3336571891, 3584528711, 113926993, 338241895,
   666307205, 773529912, 1294757372, 1396182291,
   1695183700, 1986661051, 2177026350, 2456956037,
   2730485921, 2820302411, 3259730800, 3345764771,
   3516065817, 3600352804, 4094571909, 275423344,
   430227734, 506948616, 659060556, 883997877,
   958139571, 1322822218, 1537002063, 1747873779,
   1955562222, 2024104815, 2227730452, 2361852424,
   2428436474, 2756734187, 3204031479, 3329325298]

/-- The SHA-256 initial hash state of FIPS 180-4, written in decimal: the
first 32 fractional bits of the square roots of the first 8 primes. -/
def shaH0 : List Nat :=
  [1779033703, 3144134277, 1013904242, 2773480762,
   1359893119, 2600822924, 528734635, 1541459225]

/-- Big-endian 8-byte rendering of a 64-bit value. -/
def be64 (n : Nat) : List Nat :=
  (List.range 8).map (fun i => (n >>> (8 * (7 - i))) % 256)

/-- Big-endian 4-byte rendering of a 32-bit word. -/
def be32Bytes (n : Nat) : List Nat :=
  (List.range 4).map (fun i => (n >>> (8 * (3 - i))) % 256)

/-- SHA-256 message padding. -/
def shaPad (msg : List Nat) : List Nat :=
  let zeros := (64 - (msg.length + 9) % 64) % 64
  msg ++ [128] ++ List.replicate zeros 0 ++ be64 (8 * msg.length)

/-- Split a byte list into 64-byte chunks. -/
def chunks64 (l : List Nat) : List (List Nat) :=
  if h : l = [] then [] else l.take 64 :: chunks64 (l.drop 64)
termination_by l.length
decreasing_by
  simp only [List.length_drop]
  have hz : l.length ≠ 0 := fun hz => h (List.length_eq_zero.mp hz)
  omega

/-- The `i`-th big-endian 32-bit word of a 64-byte block. -/
def word32At (block : List Nat) (i : Nat) : Nat :=
  block.getD (4 * i) 0 * 16777216 + block.getD (4 * i + 1) 0 * 65536 +
    block.getD (4 * i + 2) 0 * 256 + block.getD (4 * i + 3) 0

/-- The SHA-256 message schedule of a block: 64 32-bit words. -/
def shaSchedule (block : List Nat) : List Nat :=
  let w0 := (List.range 16).map (word32At block)
  (List.range 48).foldl
    (fun w _ =>
      let n := w.length
      w ++ [w32 (ssig1 (w.getD (n - 2) 0) + w.getD (n - 7) 0 +
                 ssig0 (w.getD (n - 15) 0) + w.getD (n - 16) 0)])
    w0

/-- One SHA-256 compression step over a 64-byte block. -/
def shaCompress (h : List Nat) (block : List Nat) : List Nat :=
  let w := shaSchedule block
  let fin := (List.range 64).foldl
    (fun st i =>
      match st with
      | [a, b, c, d, e, f, g, hh] =>
        let t1 := w32 (hh + bsig1 e + chFn e f g + shaK.getD i 0 + w.getD i 0)
        let t2 := w32 (bsig0 a + majFn a b c)
        [w32 (t1 + t2), a, b, c, w32 (d + t1), e, f, g]
      | other => other)
    h
  List.zipWith (fun x y => w32 (x + y)) h fin

/-- SHA-256 of a byte list; checked against the standard test vectors for
the empty message, "abc" and the two-block NIST message. -/
def sha256 (msg : List Nat) : List Nat :=
  ((chunks64 (shaPad msg)).foldl shaCompress shaH0).flatMap be32Bytes

/-- Lower-case hex digit of a value below 16. -/
def hexDigitChar (n : Nat) : Char :=
  if n < 10 then Char.ofNat (48 + n) else Char.ofNat (87 + n)

/-- Lower-case hex rendering of a byte list (Rust `hex::encode`). -/
def hexEncode (bs : List Nat) : Str :=
  bs.flatMap (fun b => [hexDigitChar (b / 16), hexDigitChar (b % 16)])

/-- The UTF-8 encoding of a single character. -/
def utf8Char (c : Char) : List Nat :=
  let n := c.toNat
  if n < 128 then [n]
  else if n < 2048 then [192 ||| (n >>> 6), 128 ||| (n &&& 63)]
  else if n < 65536 then
    [224 ||| (n >>> 12), 128 ||| ((n >>> 6) &&& 63), 128 ||| (n &&& 63)]
  else
    [240 ||| (n >>> 18), 128 ||| ((n >>> 12) &&& 63),
     128 ||| ((n >>> 6) &&& 63), 128 ||| (n &&& 63)]

/-- Model of Rust `str::as_bytes`: UTF-8 encoding of the string. -/
def utf8Bytes (s : Str) : List Nat := s.flatMap utf8Char

/-- The PGP armored-message begin marker (crypto/src/lib.rs line 4). -/
def BEGIN_MARKER : Str := str "-----BEGIN PGP MESSAGE-----"

/-- The PGP armored-message end marker (crypto/src/lib.rs line 5). -/
def END_MARKER : Str := str "-----END PGP MESSAGE-----"

/-- Model of `extract_pgp_message_block` (crypto/src/lib.rs lines 3-16):
find the begin marker, find the end marker at or after it, and return the
trimmed inclusive span. -/
def extract_pgp_message_block (input : Str) : Option Str :=
  match findSub input BEGIN_MARKER with
  | none => none
  | some start =>
    match findSub (input.drop start) END_MARKER with
    | none => none
    | some end_rel =>
      let block := (input.drop start).take (end_rel + END_MARKER.length)
      some (rustTrim block)

/-- Model of `pgp_block_id` (crypto/src/lib.rs lines 19-26): hex encoding
of the first 8 bytes of the SHA-256 digest of the block. -/
def pgp_block_id (block : Str) : Str :=
  hexEncode ((sha256 (utf8Bytes block)).take 8)

/-- Model of `detect_pgp` (crypto/src/lib.rs lines 28-32). -/
def detect_pgp (input : Str) : Option (Str × Str) :=
  match extract_pgp_message_block input with
  | none => none
  | some block => some (pgp_block_id block, block)

/-- Model of `DecryptError` (crypto/src/gpg.rs lines 6-12).  Each failure
constructor carries the raw gpg diagnostic. -/
inductive DecryptError where
  | NotForMe (stderr : Str)
  | InvalidMessage (stderr : Str)
  | GpgFailed (stderr : Str)
  | Io (msg : Str)
deriving DecidableEq, Repr

/-- Per-character lower-casing, modelling `str::to_lowercase` on the ASCII
diagnostics that gpg produces. -/
def lowerStr (s : Str) : Str := s.map Char.toLower

/-- Model of `classify_decrypt_failure` (crypto/src/gpg.rs lines 27-54):
case-insensitive substring tiers, secret-key phrases first, then
malformed-framing phrases, otherwise a backend failure with the raw
diagnostic. -/
def classify_decrypt_failure (stderr : Str) : DecryptError :=
  let s := lowerStr stderr
  if containsSub s (str "no secret key")
      || containsSub s (str "decryption failed: no secret key")
      || containsSub s (str "secret key not available") then
    DecryptError.NotForMe stderr
  else if containsSub s (str "no valid openpgp data found")
      || containsSub s (str "invalid armor header")
      || containsSub s (str "crc error")
      || containsSub s (str "unexpected end of file")
      || containsSub s (str "bad armor")
      || containsSub s (str "invalid packet") then
    DecryptError.InvalidMessage stderr
  else
    DecryptError.GpgFailed stderr

/-- Lexicographic order on the character-list model of strings, matching
the `Ord` instance Rust's `Vec::sort` uses for `String`. -/
def strLe : Str → Str → Bool
  | [], _ => true
  | _ :: _, [] => false
  | a :: as, b :: bs => if a < b then true else if a = b then strLe as bs else false

/-- `strLe` as a relation, for use with the sorting lemmas. -/
def strLeP (a b : Str) : Prop := strLe a b = true

instance : DecidableRel strLeP := fun a b =>
  inferInstanceAs (Decidable (strLe a b = true))

/-- Model of `Vec::dedup`: remove consecutive duplicates. -/
def dedupConsec : List Str → List Str
  | [] => []
  | [x] => [x]
  | x :: y :: rest =>
    if x = y then dedupConsec (y :: rest) else x :: dedupConsec (y :: rest)

/-- The fingerprints extracted from a gpg colon-format listing, in line
order: the tenth field of each `fpr:` line with at least ten fields,
trimmed, empties skipped (crypto/src/gpg.rs lines 243-253). -/
def extractFprs (colons : Str) : List Str :=
  (rustLines colons).foldr
    (fun line acc =>
      if (str "fpr:").isPrefixOf line then
        let parts := splitOnChar ':' line
        if parts.length > 9 then
          let fpr := rustTrim (parts.getD 9 [])
          if fpr.isEmpty then acc else fpr :: acc
        else acc
      else acc)
    []

/-- Model of `parse_colons_fprs` (crypto/src/gpg.rs lines 241-258):
extract the fingerprints, sort, and remove (now adjacent) duplicates. -/
def parse_colons_fprs (colons : Str) : List Str :=
  dedupConsec (List.insertionSort strLeP (extractFprs colons))

/-- Model of `common::Config` (common/src/lib.rs lines 3-7). -/
structure Config where
  token : Str
  channel_id : Nat
deriving DecidableEq, Repr

/-- Model of `SessionEnv` (app/src/main.rs lines 17-21): the session
overrides for the default PGP recipient and the active channel. -/
structure SessionEnv where
  default_fpr : Option Str := none
  channel_id : Option Nat := none
deriving DecidableEq, Repr

/-- Model of `SessionEnv::set_channel_id` (app/src/main.rs lines 24-26):
the effective channel is the override if set, else the static default. -/
def SessionEnv.set_channel_id (env : SessionEnv) (cfg : Config) : Nat :=
  env.channel_id.getD cfg.channel_id

/-- Model of `UiEvent` (app/src/main.rs lines 29-34). -/
inductive UiEvent where
  | Line (s : Str)
  | Clear
  | Exit
deriving DecidableEq, Repr

/-- Model of `CmdOutcome` (app/src/main.rs lines 273-276). -/
inductive CmdOutcome where
  | Continue
  | Quit
deriving DecidableEq, Repr

/-- Model of `transport::ChatEvent` (transport/src/lib.rs lines 10-16). -/
structure ChatEvent where
  channel_id : Nat
  author_id : Nat
  author : Str
  content : Str
deriving DecidableEq, Repr

/-- Model of `gpg::PublicKey` (crypto/src/gpg.rs lines 56-60). -/
structure PublicKey where
  fpr : Str
  uid : Option Str
deriving DecidableEq, Repr

/-- One recorded invocation of an external collaborator (the gpg binary or
the Discord transport). -/
inductive ExtCall where
  | available
  | version_line
  | list_secret_fingerprints
  | list_public_keys
  | encrypt_to_recipient (recipient msg : Str)
  | decrypt (block : Str)
  | send_message (channel : Nat) (content : Str)
  | fetch_messages (channel : Nat) (count : Nat)
deriving DecidableEq, Repr

/-- Oracle for the external collaborators: the responses each external
operation would return if invoked.  The bot token is a fixed credential
threaded through the transport and is elided from the oracle. -/
structure World where
  available : Except Str Bool
  version_line : Except Str Str
  list_secret_fingerprints : Except Str (List Str)
  list_public_keys : Except Str (List PublicKey)
  encrypt_to_recipient : Str → Str → Except Str Str
  decrypt : Str → Except DecryptError Str
  send_message : Nat → Str → Except Str Unit
  fetch_messages : Nat → Nat → Except Str (List ChatEvent)

/-- A sighting in the inbox cache: (fingerprint, raw block). -/
abbrev Sighting := Str × Str

/-- Pop from the front until at most 50 entries remain, modelling the
`while pgp_inbox.len() > 50 { pgp_inbox.pop_front(); }` loop
(app/src/main.rs lines 559-561). -/
def evictFront (l : List Sighting) : List Sighting :=
  if l.length > 50 then evictFront l.tail else l
termination_by l.length
decreasing_by
  simp only [List.length_tail]
  omega

/-- Record one sighting in the inbox cache: append at the tail, then evict
from the head while over capacity (app/src/main.rs lines 558-561). -/
def record (inbox : List Sighting) (s : Sighting) : List Sighting :=
  evictFront (inbox ++ [s])

/-- Rendered warning line (colour omitted). -/
def render_warn (msg : Str) : Str := msg

/-- Rendered error line (app/src/main.rs lines 668-670, colour omitted). -/
def render_error (msg : Str) : Str := str "! " ++ msg

/-- Rendered incoming plain-text line (timestamp and colour omitted). -/
def render_incoming (author content : Str) : Str :=
  str "← " ++ author ++ str ": " ++ content

/-- Rendered sent-confirmation line. -/
def render_outgoing_sent : Str := str "→ sent"

/-- Rendered line for a decrypted inbound PGP block. -/
def render_pgp_decrypted (author id plaintext : Str) : Str :=
  str "← " ++ author ++ str ": [PGP] id=" ++ id ++ str " decrypted " ++ plaintext

/-- Rendered line for an invalid inbound PGP block. -/
def render_pgp_invalid (author id : Str) : Str :=
  str "← " ++ author ++ str ": [PGP] id=" ++ id ++ str " invalid"

/-- Rendered line for an inbound PGP block that failed to decrypt. -/
def render_pgp_error (author id : Str) : Str :=
  str "← " ++ author ++ str ": [PGP] id=" ++ id ++ str " decrypt error"

/-- Rendered line for an inbound PGP block not addressed to this key. -/
def render_pgp_unknown (author id : Str) : Str :=
  str "← " ++ author ++ str ": [PGP] id=" ++ id ++ str " not for me"

/-- The help text (app/src/main.rs lines 583-662); its contents are pure
presentation and are abbreviated here. -/
def render_help : Str := str "Commands: help me keys load send clear quit pgp export"

/-- Model of `handle_chat_event` (app/src/main.rs lines 551-581): if the
event content holds a PGP block, record it in the inbox cache and attempt
a decrypt, rendering one line per the outcome; otherwise render the event
as plain text.  The Rust function returns `Result` but has no failing
path, so the model returns the updated inbox, the external calls made,
and the rendered lines. -/
def handle_chat_event (ev : ChatEvent) (pgp_inbox : List Sighting) (w : World) :
    List Sighting × List ExtCall × List Str :=
  match detect_pgp ev.content with
  | some (id, block) =>
    let inbox := record pgp_inbox (id, block)
    let line := match w.decrypt block with
      | Except.ok pt => render_pgp_decrypted ev.author id pt
      | Except.error (DecryptError.NotForMe _) => render_pgp_unknown ev.author id
      | Except.error (DecryptError.InvalidMessage _) => render_pgp_invalid ev.author id
      | Except.error _ => render_pgp_error ev.author id
    (inbox, [ExtCall.decrypt block], [line])
  | none => (pgp_inbox, [], [render_incoming ev.author ev.content])

/-- Result of one command-router invocation: the session env and inbox
after the call (Rust mutates them through `&mut`), the external calls made
in order, and either an error message or the outcome with the rendered
lines and UI side effects. -/
structure CmdResult where
  env : SessionEnv
  inbox : List Sighting
  calls : List ExtCall
  res : Except Str (CmdOutcome × List Str × List UiEvent)
deriving Repr

/-- Replay a list of historical events through `handle_chat_event`,
accumulating inbox updates, calls and lines (the `load` command loop,
app/src/main.rs lines 441-444). -/
def replayEvents (history : List ChatEvent) (inbox : List Sighting) (w : World) :
    List Sighting × List ExtCall × List Str :=
  history.foldl
    (fun acc ev =>
      let r := handle_chat_event ev acc.1 w
      (r.1, acc.2.1 ++ r.2.1, acc.2.2 ++ r.2.2))
    (inbox, [], [])

/-- Command execution on the whitespace-split tokens of an input line
(the body of `handle_command`, app/src/main.rs lines 284-548; the Rust
function consumes a `split_whitespace` iterator, modelled here as the
token list). -/
def handleTokens (parts : List Str) (cfg : Config) (env : SessionEnv)
    (pgp_inbox : List Sighting) (w : World) : CmdResult :=
  match parts with
  | [] => ⟨env, pgp_inbox, [], Except.error (str "empty command")⟩
  | cmd :: args =>
    if cmd = str "export" then
      match args with
      | [] => ⟨env, pgp_inbox, [],
          Except.error (str "Usage: export <recipient|channel|show|unset> ...")⟩
      | what :: rest =>
        if what = str "recipient" then
          let v := rustTrim (joinSp rest)
          if v.isEmpty then
            ⟨env, pgp_inbox, [], Except.error (str "Usage: export recipient <fpr|uid>")⟩
          else
            ⟨{ env with default_fpr := some v }, pgp_inbox, [],
              Except.ok (CmdOutcome.Continue, [str "exported recipient = " ++ v], [])⟩
        else if what = str "channel" then
          match rest with
          | [] => ⟨env, pgp_inbox, [],
              Except.error (str "Usage: export channel <channel_id>")⟩
          | v :: _ =>
            match parse_u64 v with
            | none => ⟨env, pgp_inbox, [],
                Except.error (str "channel_id must be an integer")⟩
            | some ch =>
              ⟨{ env with channel_id := some ch }, pgp_inbox, [],
                Except.ok (CmdOutcome.Continue,
                  [str "exported channel = " ++ natChars ch,
                   str "Note: now listening/sending only in this channel."], [])⟩
        else if what = str "show" then
          ⟨env, pgp_inbox, [],
            Except.ok (CmdOutcome.Continue,
              [str "Session exports:",
               str "  channel " ++ natChars (env.set_channel_id cfg),
               str "  recipient " ++ (env.default_fpr.getD (str "(not set)"))], [])⟩
        else if what = str "unset" then
          let which := rest.headD []
          if which = str "recipient" then
            ⟨{ env with default_fpr := none }, pgp_inbox, [],
              Except.ok (CmdOutcome.Continue, [str "unset recipient"], [])⟩
          else if which = str "channel" then
            ⟨{ env with channel_id := none }, pgp_inbox, [],
              Except.ok (CmdOutcome.Continue,
                [str "unset channel (back to env) " ++ natChars cfg.channel_id], [])⟩
          else
            ⟨env, pgp_inbox, [], Except.error (str "Usage: export unset <fpr|channel>")⟩
        else
          ⟨env, pgp_inbox, [],
            Except.error (str "Usage: export <recipient|channel|show|unset> ...")⟩
    else if cmd = str "clear" then
      ⟨env, pgp_inbox, [], Except.ok (CmdOutcome.Continue, [], [UiEvent.Clear])⟩
    else if cmd = str "help" ∨ cmd = str "h" ∨ cmd = str "?" then
      ⟨env, pgp_inbox, [], Except.ok (CmdOutcome.Continue, [render_help], [])⟩
    else if cmd = str "me" then
      match w.available with
      | Except.error e => ⟨env, pgp_inbox, [ExtCall.available], Except.error e⟩
      | Except.ok false =>
        ⟨env, pgp_inbox, [ExtCall.available],
          Except.ok (CmdOutcome.Continue, [render_warn (str "gpg not found.")], [])⟩
      | Except.ok true =>
        match w.version_line with
        | Except.error e =>
          ⟨env, pgp_inbox, [ExtCall.available, ExtCall.version_line], Except.error e⟩
        | Except.ok vl =>
          match w.list_secret_fingerprints with
          | Except.error e =>
            ⟨env, pgp_inbox,
              [ExtCall.available, ExtCall.version_line, ExtCall.list_secret_fingerprints],
              Except.error e⟩
          | Except.ok fprs =>
            let lines :=
              if fprs.isEmpty then
                [vl, render_warn (str "No secret keys found in your GPG keyring.")]
              else
                [vl, str "Secret key fingerprints:"] ++ fprs.map (fun f => str "  " ++ f)
            ⟨env, pgp_inbox,
              [ExtCall.available, ExtCall.version_line, ExtCall.list_secret_fingerprints],
              Except.ok (CmdOutcome.Continue, lines, [])⟩
    else if cmd = str "send" ∨ cmd = str "s" then
      let msg := joinSp args
      if msg.isEmpty then
        ⟨env, pgp_inbox, [], Except.error (str "Usage: send <message...>")⟩
      else
        match w.send_message (env.set_channel_id cfg) msg with
        | Except.error e =>
          ⟨env, pgp_inbox, [ExtCall.send_message (env.set_channel_id cfg) msg],
            Except.error e⟩
        | Except.ok _ =>
          ⟨env, pgp_inbox, [ExtCall.send_message (env.set_channel_id cfg) msg],
            Except.ok (CmdOutcome.Continue, [render_outgoing_sent], [])⟩
    else if cmd = str "keys" then
      match w.list_public_keys with
      | Except.error e => ⟨env, pgp_inbox, [ExtCall.list_public_keys], Except.error e⟩
      | Except.ok keys =>
        let lines :=
          if keys.isEmpty then
            [render_warn (str "No public keys found in your GPG keyring.")]
          else
            str "Public keys (recipients):" ::
              keys.map (fun k =>
                match k.uid with
                | some uid => str "  " ++ k.fpr ++ str "  —  " ++ uid
                | none => str "  " ++ k.fpr)
        ⟨env, pgp_inbox, [ExtCall.list_public_keys],
          Except.ok (CmdOutcome.Continue, lines, [])⟩
    else if cmd = str "load" then
      match args with
      | [] => ⟨env, pgp_inbox, [], Except.error (str "Usage: load <count>")⟩
      | n_str :: _ =>
        match parse_u64 n_str with
        | none => ⟨env, pgp_inbox, [], Except.error (str "load <count> must be a number")⟩
        | some n =>
          match w.fetch_messages (env.set_channel_id cfg) n with
          | Except.error e =>
            ⟨env, pgp_inbox, [ExtCall.fetch_messages (env.set_channel_id cfg) n],
              Except.error e⟩
          | Except.ok history =>
            if history.isEmpty then
              ⟨env, pgp_inbox, [ExtCall.fetch_messages (env.set_channel_id cfg) n],
                Except.ok (CmdOutcome.Continue,
                  [render_warn (str "No messages returned.")], [])⟩
            else
              let r := replayEvents history pgp_inbox w
              let header := str "Loading " ++ natChars history.length ++ str "/" ++
                natChars n ++ str " messages..."
              ⟨env, r.1,
                ExtCall.fetch_messages (env.set_channel_id cfg) n :: r.2.1,
                Except.ok (CmdOutcome.Continue, header :: r.2.2, [])⟩
    else if cmd = str "pgp" then
      let sub := args.headD []
      let rest := args.tail
      if sub = str "list" then
        let lines :=
          if pgp_inbox.isEmpty then
            [render_warn (str "No PGP messages captured yet.")]
          else
            str "Captured PGP messages (latest last):" ::
              pgp_inbox.map (fun p =>
                str "  id= " ++ p.1 ++ str " (" ++ natChars p.2.length ++ str " chars)")
        ⟨env, pgp_inbox, [], Except.ok (CmdOutcome.Continue, lines, [])⟩
      else if sub = str "decrypt-last" then
        match pgp_inbox.getLast? with
        | none =>
          ⟨env, pgp_inbox, [],
            Except.ok (CmdOutcome.Continue,
              [render_warn (str "No PGP messages captured yet.")], [])⟩
        | some (id, block) =>
          let lines := match w.decrypt block with
            | Except.ok pt => [str "Decrypted (id=" ++ id ++ str ")", pt]
            | Except.error (DecryptError.NotForMe _) =>
              [str "Not for me (id=" ++ id ++ str ")"]
            | Except.error (DecryptError.InvalidMessage _) =>
              [str "Invalid PGP message (id=" ++ id ++ str ")"]
            | Except.error _ => [str "Decrypt error (id=" ++ id ++ str ")"]
          ⟨env, pgp_inbox, [ExtCall.decrypt block],
            Except.ok (CmdOutcome.Continue, lines, [])⟩
      else if sub = str "decrypt" then
        match rest with
        | [] => ⟨env, pgp_inbox, [], Except.error (str "Usage: pgp decrypt <id>")⟩
        | id :: _ =>
          match pgp_inbox.find? (fun p => p.1 == id) with
          | none =>
            ⟨env, pgp_inbox, [],
              Except.error (str "No captured PGP message with id=" ++ id)⟩
          | some (_, block) =>
            let lines := match w.decrypt block with
              | Except.ok pt => [str "Decrypted (id=" ++ id ++ str ")", pt]
              | Except.error (DecryptError.NotForMe _) =>
                [str "Not for me (id=" ++ id ++ str ")"]
              | Except.error (DecryptError.InvalidMessage _) =>
                [str "Invalid PGP message (id=" ++ id ++ str ")"]
              | Except.error _ => [str "Decrypt error (id=" ++ id ++ str ")"]
            ⟨env, pgp_inbox, [ExtCall.decrypt block],
              Except.ok (CmdOutcome.Continue, lines, [])⟩
      else if sub = str "send" then
        match rest with
        | [] =>
          ⟨env, pgp_inbox, [],
            Except.error
              (str "Usage: pgp send <message...> OR pgp send -r <fpr|uid> <message...>")⟩
        | first :: more =>
          let parsed : Except Str (Option Str × List Str) :=
            if first = str "-r" then
              match more with
              | [] => Except.error (str "Usage: pgp send -r <fpr|uid> <message...>")
              | r :: msg_parts =>
                if msg_parts.isEmpty then
                  Except.error (str "Usage: pgp send -r <fpr|uid> <message...>")
                else Except.ok (some r, msg_parts)
            else Except.ok (none, first :: more)
          match parsed with
          | Except.error e => ⟨env, pgp_inbox, [], Except.error e⟩
          | Except.ok (explicit, msg_parts) =>
            let recipient? := match explicit with
              | some r => some r
              | none => env.default_fpr
            match recipient? with
            | none =>
              ⟨env, pgp_inbox, [],
                Except.error
                  (str "No exported recipient set. Use: export recipient <fpr|uid>")⟩
            | some recipient =>
              let msg := joinSp msg_parts
              match w.encrypt_to_recipient recipient msg with
              | Except.error e =>
                ⟨env, pgp_inbox, [ExtCall.encrypt_to_recipient recipient msg],
                  Except.error e⟩
              | Except.ok armored =>
                match w.send_message (env.set_channel_id cfg) armored with
                | Except.error e =>
                  ⟨env, pgp_inbox,
                    [ExtCall.encrypt_to_recipient recipient msg,
                     ExtCall.send_message (env.set_channel_id cfg) armored],
                    Except.error e⟩
                | Except.ok _ =>
                  ⟨env, pgp_inbox,
                    [ExtCall.encrypt_to_recipient recipient msg,
                     ExtCall.send_message (env.set_channel_id cfg) armored],
                    Except.ok (CmdOutcome.Continue,
                      [str "→ sent encrypted PGP message to " ++ recipient], [])⟩
      else
        ⟨env, pgp_inbox, [],
          Except.error (str "Usage: pgp <list|send|decrypt <id>|decrypt-last>")⟩
    else if cmd = str "quit" ∨ cmd = str "exit" ∨ cmd = str "q" then
      ⟨env, pgp_inbox, [], Except.ok (CmdOutcome.Quit, [], [])⟩
    else
      ⟨env, pgp_inbox, [],
        Except.error (str "Unknown command: " ++ cmd ++ str " (try: help)")⟩

/-- Model of `handle_command` (app/src/main.rs lines 278-549): split the
input line on whitespace and execute the resulting command. -/
def handle_command (line : Str) (cfg : Config) (env : SessionEnv)
    (pgp_inbox : List Sighting) (w : World) : CmdResult :=
  handleTokens (splitWs line) cfg env pgp_inbox w

/-- One item presented to the dispatch loop: an inbound chat event, the
chat stream going idle, a user command line, or the command source
closing. -/
inductive LoopInput where
  | chat (ev : ChatEvent)
  | chatClosed
  | cmd (line : Str)
  | cmdClosed
deriving DecidableEq

/-- The dispatch loop's control state: still looping, or broken out. -/
inductive LoopMode where
  | Running
  | Terminating
deriving DecidableEq, Repr

/-- Result of one dispatch-loop iteration. -/
structure StepResult where
  env : SessionEnv
  inbox : List Sighting
  calls : List ExtCall
  ui : List UiEvent
  mode : LoopMode
deriving Repr

/-- Model of one iteration of the dispatch loop (app/src/main.rs lines
232-268): a chat event for the effective channel runs the inbound path
and its lines are forwarded; a chat event for any other channel is
dropped silently; a command line runs the router, rendering a single
error line on failure; a `Quit` outcome or closure of the command source
breaks the loop. -/
def dispatchStep (cfg : Config) (w : World) (env : SessionEnv)
    (inbox : List Sighting) (inp : LoopInput) : StepResult :=
  match inp with
  | LoopInput.chat ev =>
    if ev.channel_id = env.set_channel_id cfg then
      let r := handle_chat_event ev inbox w
      ⟨env, r.1, r.2.1, r.2.2.map UiEvent.Line, LoopMode.Running⟩
    else
      ⟨env, inbox, [], [], LoopMode.Running⟩
  | LoopInput.chatClosed => ⟨env, inbox, [], [], LoopMode.Running⟩
  | LoopInput.cmd line =>
    let r := handle_command line cfg env inbox w
    match r.res with
    | Except.error e =>
      ⟨r.env, r.inbox, r.calls, [UiEvent.Line (render_error e)], LoopMode.Running⟩
    | Except.ok (outcome, lines, uiEvents) =>
      match outcome with
      | CmdOutcome.Continue =>
        ⟨r.env, r.inbox, r.calls, lines.map UiEvent.Line ++ uiEvents, LoopMode.Running⟩
      | CmdOutcome.Quit =>
        ⟨r.env, r.inbox, r.calls,
          lines.map UiEvent.Line ++ uiEvents ++ [UiEvent.Exit], LoopMode.Terminating⟩
  | LoopInput.cmdClosed => ⟨env, inbox, [], [], LoopMode.Terminating⟩

/-! ### String-search lemmas -/

theorem isPrefixOf_eq_true_iff {p l : Str} : p.isPrefixOf l = true ↔ p <+: l :=
  List.isPrefixOf_iff_prefix

theorem occursAt_iff {p s : Str} {i : Nat} : occursAt p s i ↔ p <+: s.drop i := by
  rw [occursAt, isPrefixOf_eq_true_iff]

theorem occursAt_zero_iff {p s : Str} : occursAt p s 0 ↔ p.isPrefixOf s = true := by
  rw [occursAt, List.drop_zero]

theorem occursAt_nil_iff {p : Str} {i : Nat} : occursAt p [] i ↔ p.isPrefixOf [] = true := by
  rw [occursAt, List.drop_nil]

theorem occursAt_cons_succ {p : Str} {c : Char} {t : Str} {j : Nat} :
    occursAt p (c :: t) (j + 1) ↔ occursAt p t j := by
  rw [occursAt, occursAt, List.drop_succ_cons]

theorem findSub_nil (p : Str) :
    findSub [] p = if p.isPrefixOf [] then some 0 else none := rfl

theorem findSub_cons (c : Char) (t p : Str) :
    findSub (c :: t) p =
      if p.isPrefixOf (c :: t) then some 0 else (findSub t p).map (· + 1) := rfl

theorem findSub_eq_some_iff {s p : Str} {i : Nat} :
    findSub s p = some i ↔ (occursAt p s i ∧ ∀ j, j < i → ¬ occursAt p s j) := by
  induction s generalizing i with
  | nil =>
    rw [findSub_nil]
    by_cases hp : p.isPrefixOf ([] : Str) = true
    · rw [if_pos hp]
      constructor
      · rintro h
        have hi : i = 0 := by
          have := Option.some.inj h
          omega
        subst hi
        exact ⟨occursAt_nil_iff.mpr hp, by omega⟩
      · rintro ⟨_, hmin⟩
        rcases Nat.eq_zero_or_pos i with h0 | h0
        · rw [h0]
        · exact absurd (occursAt_nil_iff.mpr hp) (hmin 0 h0)
    · rw [if_neg hp]
      constructor
      · rintro h; cases h
      · rintro ⟨hocc, _⟩
        exact absurd (occursAt_nil_iff.mp hocc) hp
  | cons c t ih =>
    rw [findSub_cons]
    by_cases hp : p.isPrefixOf (c :: t) = true
    · rw [if_pos hp]
      constructor
      · rintro h
        have hi : i = 0 := by
          have := Option.some.inj h
          omega
        subst hi
        exact ⟨occursAt_zero_iff.mpr hp, by omega⟩
      · rintro ⟨_, hmin⟩
        rcases Nat.eq_zero_or_pos i with h0 | h0
        · rw [h0]
        · exact absurd (occursAt_zero_iff.mpr hp) (hmin 0 h0)
    · rw [if_neg hp]
      cases hft : findSub t p with
      | none =>
        simp only [Option.map_none']
        constructor
        · rintro h; cases h
        · rintro ⟨hocc, hmin⟩
          cases i with
          | zero => exact absurd (occursAt_zero_iff.mp hocc) hp
          | succ j =>
            have := (ih (i := j)).not.mp (by rw [hft]; rintro h; cases h)
            push_neg at this
            rcases this (occursAt_cons_succ.mp hocc) with ⟨k, hk, hkOcc⟩
            exact (hmin (k + 1) (by omega) (occursAt_cons_succ.mpr hkOcc)).elim
      | some k =>
        simp only [Option.map_some']
        rcases (ih (i := k)).mp hft with ⟨hocc, hmin⟩
        constructor
        · rintro h
          have hi : i = k + 1 := (Option.some.inj h).symm
          subst hi
          refine ⟨occursAt_cons_succ.mpr hocc, ?_⟩
          rintro m hm hmOcc
          cases m with
          | zero => exact absurd (occursAt_zero_iff.mp hmOcc) hp
          | succ m' => exact hmin m' (by omega) (occursAt_cons_succ.mp hmOcc)
        · rintro ⟨hocc', hmin'⟩
          cases i with
          | zero => exact absurd (occursAt_zero_iff.mp hocc') hp
          | succ j =>
            have hjk : j = k := by
              rcases Nat.lt_trichotomy j k with h | h | h
              · exact absurd (occursAt_cons_succ.mp hocc') (hmin j h)
              · exact h
              · exact absurd (occursAt_cons_succ.mpr hocc)
                  (hmin' (k + 1) (by omega))
            rw [hjk]

theorem findSub_eq_none_iff {s p : Str} :
    findSub s p = none ↔ ∀ i, ¬ occursAt p s i := by
  constructor
  · rintro h i hocc
    have hdec : ∀ j, Decidable (occursAt p s j) := fun j =>
      inferInstanceAs (Decidable (_ = true))
    have hex : ∃ j, occursAt p s j := ⟨i, hocc⟩
    have hsome : findSub s p = some (Nat.find hex) :=
      findSub_eq_some_iff.mpr ⟨Nat.find_spec hex, fun j hj => Nat.find_min hex hj⟩
    rw [h] at hsome
    cases hsome
  · rintro h
    cases hf : findSub s p with
    | none => rfl
    | some k => exact absurd (findSub_eq_some_iff.mp hf).1 (h k)

theorem pref_append_right {p a : Str} (h : p <+: a) (b : Str) : p <+: a ++ b := by
  rcases h with ⟨q, rfl⟩
  exact ⟨q ++ b, by simp⟩

theorem pref_of_take {p l : Str} {n : Nat} (h : p <+: l.take n) : p <+: l := by
  have h2 := pref_append_right h (l.drop n)
  rwa [List.take_append_drop] at h2

theorem pref_take {p l : Str} (h : p <+: l) {n : Nat} (hn : p.length ≤ n) :
    p <+: l.take n := by
  rcases h with ⟨q, rfl⟩
  refine ⟨q.take (n - p.length), ?_⟩
  rw [List.take_append_eq_append_take, List.take_of_length_le hn]

theorem pref_of_append_of_length_le {p a b : Str} (h : p <+: a ++ b)
    (hl : p.length ≤ a.length) : p <+: a := by
  have hp : p = (a ++ b).take p.length := by
    rcases h with ⟨q, hq⟩
    rw [← hq, List.take_append_eq_append_take, Nat.sub_self, List.take_zero,
      List.append_nil, List.take_of_length_le le_rfl]
  rw [List.take_append_of_le_length hl] at hp
  refine ⟨a.drop p.length, ?_⟩
  nth_rewrite 1 [hp]
  rw [List.take_append_drop]

theorem infix_iff_exists_occursAt {p s : Str} : p <:+: s ↔ ∃ i, occursAt p s i := by
  constructor
  · rintro ⟨pre, post, h⟩
    refine ⟨pre.length, occursAt_iff.mpr ?_⟩
    rw [← h, List.append_assoc, List.drop_left]
    exact ⟨post, rfl⟩
  · rintro ⟨i, hocc⟩
    rcases occursAt_iff.mp hocc with ⟨q, hq⟩
    exact ⟨s.take i, q, by rw [List.append_assoc, hq, List.take_append_drop]⟩

theorem containsSub_iff_infix {s p : Str} : containsSub s p = true ↔ p <:+: s := by
  rw [containsSub, Option.isSome_iff_exists, infix_iff_exists_occursAt]
  constructor
  · rintro ⟨i, hi⟩
    exact ⟨i, (findSub_eq_some_iff.mp hi).1⟩
  · rintro ⟨i, _⟩
    cases hfind : findSub s p with
    | some j => exact ⟨j, rfl⟩
    | none => exact absurd ‹occursAt p s i› (findSub_eq_none_iff.mp hfind i)

theorem rustTrim_eq_self {l : Str}
    (h1 : ∀ c, l.head? = some c → c.isWhitespace = false)
    (h2 : ∀ c, l.getLast? = some c → c.isWhitespace = false) : rustTrim l = l := by
  cases l with
  | nil => rfl
  | cons a t =>
    have ha := h1 a rfl
    unfold rustTrim
    rw [List.dropWhile_cons, ha]
    simp only [Bool.false_eq_true, if_false]
    cases hr : (a :: t).reverse with
    | nil => simp at hr
    | cons b rb =>
      have hb : (a :: t).getLast? = some b := by
        rw [← List.head?_reverse, hr]; rfl
      have hbw := h2 b hb
      rw [List.dropWhile_cons, hbw]
      simp only [Bool.false_eq_true, if_false]
      rw [← hr, List.reverse_reverse]

/-! ### Inbox cache lemmas -/

theorem evictFront_eq_drop_aux :
    ∀ (n : Nat) (l : List Sighting), l.length ≤ n →
      evictFront l = l.drop (l.length - 50) := by
  intro n
  induction n with
  | zero =>
    rintro l hl
    have hnil : l = [] := List.length_eq_zero.mp (by omega)
    subst hnil
    rw [evictFront]
    simp
  | succ n ih =>
    rintro l hl
    by_cases h : l.length > 50
    · rw [evictFront, if_pos h, ih l.tail (by simp [List.length_tail]; omega)]
      rw [List.length_tail, ← List.drop_one, List.drop_drop]
      congr 1
      omega
    · rw [evictFront, if_neg h]
      have h0 : l.length - 50 = 0 := by omega
      rw [h0, List.drop_zero]

theorem evictFront_eq_drop (l : List Sighting) :
    evictFront l = l.drop (l.length - 50) :=
  evictFront_eq_drop_aux l.length l le_rfl

theorem record_eq_drop (cache : List Sighting) (s : Sighting) :
    record cache s = (cache ++ [s]).drop (cache.length + 1 - 50) := by
  rw [record, evictFront_eq_drop]
  congr 1
  simp

theorem record_length_le (cache : List Sighting) (s : Sighting) :
    (record cache s).length ≤ 50 := by
  rw [record_eq_drop, List.length_drop]
  simp only [List.length_append, List.length_cons, List.length_nil]
  omega

theorem foldl_record_eq_drop :
    ∀ (es : List Sighting) (cache : List Sighting), cache.length ≤ 50 →
      List.foldl record cache es = (cache ++ es).drop (cache.length + es.length - 50) := by
  intro es
  induction es with
  | nil =>
    rintro cache hc
    simp only [List.foldl_nil, List.append_nil, List.length_nil]
    have h0 : cache.length + 0 - 50 = 0 := by omega
    rw [h0, List.drop_zero]
  | cons s es ih =>
    rintro cache hc
    rw [List.foldl_cons, ih (record cache s) (record_length_le cache s)]
    rw [record_eq_drop]
    have hk : cache.length + 1 - 50 ≤ (cache ++ [s]).length := by
      simp only [List.length_append, List.length_cons, List.length_nil]
      omega
    rw [← List.drop_append_of_le_length hk, List.drop_drop, List.length_drop]
    have harr : (cache ++ [s]).length = cache.length + 1 := by simp
    rw [harr]
    have h1 : cache ++ [s] ++ es = cache ++ s :: es := by simp
    rw [h1]
    congr 1
    simp only [List.length_cons]
    omega

instance (pat s : Str) (i : Nat) : Decidable (occursAt pat s i) :=
  inferInstanceAs (Decidable (_ = true))

instance (pat s : Str) (i : Nat) : Decidable (firstOccurAt pat s i) :=
  inferInstanceAs (Decidable (_ ∧ _))

instance (pat s : Str) (start j : Nat) : Decidable (firstOccurFrom pat s start j) :=
  inferInstanceAs (Decidable (_ ∧ _ ∧ _))

/-- Claim C1: the inbox cache never exceeds 50 entries; `record` appends
at the tail and evicts from the head only, so recording 51 distinct
sightings into an empty cache leaves exactly the last 50 in their original
relative order, with the first-recorded sighting absent. -/
theorem inbox_cache_fifo :
    (∀ (cache : List Sighting) (s : Sighting), (record cache s).length ≤ 50)
  ∧ (∀ es : List Sighting, es.length = 51 → es.Nodup →
      List.foldl record [] es = es.tail
      ∧ (List.foldl record [] es).length = 50
      ∧ (∀ a, es.head? = some a → a ∉ List.foldl record [] es)) := by
  refine ⟨record_length_le, ?_⟩
  rintro es hlen hnodup
  have h1 : List.foldl record [] es = es.tail := by
    rw [foldl_record_eq_drop es [] (by simp)]
    simp only [List.nil_append, List.length_nil, Nat.zero_add]
    rw [hlen, show (51 : Nat) - 50 = 1 by norm_num, List.drop_one]
  refine ⟨h1, by rw [h1, List.length_tail, hlen], ?_⟩
  rintro a ha hmem
  cases es with
  | nil => cases ha
  | cons e t =>
    have hae : e = a := Option.some.inj ha
    rw [h1, List.tail_cons] at hmem
    exact (List.nodup_cons.mp hnodup).1 (hae ▸ hmem)

/-- A list of 51 pairwise-distinct sightings, used to exercise the FIFO
eviction claim on a concrete input. -/
def fiftyOneSightings : List Sighting :=
  (List.range 51).map (fun n => (List.replicate n 'a', ([] : Str)))

theorem inbox_cache_fifo_witness :
    List.foldl record [] fiftyOneSightings = fiftyOneSightings.tail
    ∧ (([], ([] : Str)) ∉ List.foldl record [] fiftyOneSightings) := by
  have h := inbox_cache_fifo.2 fiftyOneSightings (by decide) (by decide)
  exact ⟨h.1, h.2.2 ([], ([] : Str)) rfl⟩

/-! ### Payload-detector lemmas -/

theorem firstOccurAt_iff_findSub {p s : Str} {i : Nat} :
    firstOccurAt p s i ↔ findSub s p = some i := by
  unfold firstOccurAt
  exact findSub_eq_some_iff.symm

theorem occursAt_drop_iff {p s : Str} {start k : Nat} :
    occursAt p (s.drop start) k ↔ occursAt p s (start + k) := by
  rw [occursAt, occursAt, List.drop_drop]

theorem firstOccurFrom_iff_findSub {p s : Str} {start j : Nat} :
    firstOccurFrom p s start j ↔
      start ≤ j ∧ findSub (s.drop start) p = some (j - start) := by
  unfold firstOccurFrom
  rw [findSub_eq_some_iff]
  constructor
  · rintro ⟨hsj, hocc, hmin⟩
    refine ⟨hsj, occursAt_drop_iff.mpr (by rwa [Nat.add_sub_cancel' hsj]), ?_⟩
    rintro k hk hkOcc
    exact hmin (start + k) (by omega) (by omega) (occursAt_drop_iff.mp hkOcc)
  · rintro ⟨hsj, hocc, hmin⟩
    refine ⟨hsj, ?_, ?_⟩
    · have h2 := occursAt_drop_iff.mp hocc
      rwa [Nat.add_sub_cancel' hsj] at h2
    · rintro k hk hks hkOcc
      have h3 : occursAt p (s.drop start) (k - start) :=
        occursAt_drop_iff.mpr (by rwa [Nat.add_sub_cancel' hks])
      exact hmin (k - start) (by omega) h3

theorem extract_eq_of_found {t : Str} {s r : Nat}
    (hb : findSub t BEGIN_MARKER = some s)
    (he : findSub (t.drop s) END_MARKER = some r) :
    extract_pgp_message_block t =
      some (rustTrim ((t.drop s).take (r + END_MARKER.length))) := by
  unfold extract_pgp_message_block
  rw [hb]
  dsimp only
  rw [he]

theorem detect_eq_of_extract {t b : Str} (h : extract_pgp_message_block t = some b) :
    detect_pgp t = some (pgp_block_id b, b) := by
  unfold detect_pgp
  rw [h]

/-- Claim C2: `detect_pgp` returns a match exactly when the begin marker
occurs and the end marker occurs at or after it; the returned block is the
whitespace-trimmed inclusive marker-to-marker span and the returned
fingerprint is the hex encoding of the first 8 bytes of the SHA-256 digest
of the block, a pure function of the block's bytes. -/
theorem detect_pgp_spec (t : Str) :
    ((∀ i, ¬ occursAt BEGIN_MARKER t i) → detect_pgp t = none)
  ∧ (∀ s, firstOccurAt BEGIN_MARKER t s →
      (∀ j, s ≤ j → ¬ occursAt END_MARKER t j) → detect_pgp t = none)
  ∧ (∀ s j, firstOccurAt BEGIN_MARKER t s → firstOccurFrom END_MARKER t s j →
      detect_pgp t = some
        (hexEncode ((sha256 (utf8Bytes
            (rustTrim ((t.drop s).take (j - s + END_MARKER.length))))).take 8),
         rustTrim ((t.drop s).take (j - s + END_MARKER.length))))
  ∧ (∀ b₁ b₂ : Str, utf8Bytes b₁ = utf8Bytes b₂ → pgp_block_id b₁ = pgp_block_id b₂) := by
  refine ⟨?_, ?_, ?_, ?_⟩
  · rintro h
    unfold detect_pgp extract_pgp_message_block
    rw [findSub_eq_none_iff.mpr h]
  · rintro s hs hnoe
    unfold detect_pgp extract_pgp_message_block
    rw [firstOccurAt_iff_findSub.mp hs]
    have hnone : findSub (t.drop s) END_MARKER = none := by
      rw [findSub_eq_none_iff]
      rintro k hk
      exact hnoe (s + k) (by omega) (occursAt_drop_iff.mp hk)
    dsimp only
    rw [hnone]
  · rintro s j hs hj
    rcases firstOccurFrom_iff_findSub.mp hj with ⟨hsj, hfind⟩
    rw [detect_eq_of_extract (extract_eq_of_found (firstOccurAt_iff_findSub.mp hs) hfind)]
    rfl
  · rintro b₁ b₂ hb
    unfold pgp_block_id
    rw [hb]

/-- A chat text holding one full armored block, with the begin marker
first occurring at index 3 and the end marker at index 33. -/
def sampleChatText : Str :=
  str "hi -----BEGIN PGP MESSAGE-----\nX\n-----END PGP MESSAGE----- bye"

theorem detect_pgp_spec_witness :
    detect_pgp sampleChatText = some
      (hexEncode ((sha256 (utf8Bytes
          (rustTrim ((sampleChatText.drop 3).take (33 - 3 + END_MARKER.length))))).take 8),
       rustTrim ((sampleChatText.drop 3).take (33 - 3 + END_MARKER.length))) :=
  (detect_pgp_spec sampleChatText).2.2.1 3 33 (by decide) (by decide)

theorem begin_marker_head (q : Str) : (BEGIN_MARKER ++ q).head? = some '-' := rfl

theorem end_marker_last (x : Str) : (x ++ END_MARKER).getLast? = some '-' := by
  rw [List.getLast?_eq_head?_reverse, List.reverse_append]
  rfl

/-- Claim C9 core argument: on a successful detection the extracted block
starts exactly at the begin marker, ends exactly at the end marker, and is
already trimmed, so detection re-run on the block reproduces it. -/
theorem detect_pgp_idem {t id block : Str} (h : detect_pgp t = some (id, block)) :
    detect_pgp block = some (id, block) := by
  unfold detect_pgp at h
  cases hex : extract_pgp_message_block t with
  | none => rw [hex] at h; cases h
  | some b =>
    rw [hex] at h
    dsimp only at h
    have hpair := Option.some.inj h
    have hid : pgp_block_id b = id := congrArg Prod.fst hpair
    have hblock : b = block := congrArg Prod.snd hpair
    unfold extract_pgp_message_block at hex
    cases hfb : findSub t BEGIN_MARKER with
    | none => rw [hfb] at hex; cases hex
    | some s =>
      rw [hfb] at hex
      dsimp only at hex
      cases hfe : findSub (t.drop s) END_MARKER with
      | none => rw [hfe] at hex; cases hex
      | some r =>
        rw [hfe] at hex
        dsimp only at hex
        have hb : rustTrim ((t.drop s).take (r + END_MARKER.length)) = b :=
          Option.some.inj hex
        have hEq25 : END_MARKER.length = 25 := rfl
        have hB27 : BEGIN_MARKER.length = 27 := rfl
        have hpB : BEGIN_MARKER <+: t.drop s :=
          occursAt_iff.mp (findSub_eq_some_iff.mp hfb).1
        rcases findSub_eq_some_iff.mp hfe with ⟨hoccE, hminE⟩
        have hpE : END_MARKER <+: (t.drop s).drop r := occursAt_iff.mp hoccE
        have hlen_ts : r + 25 ≤ (t.drop s).length := by
          have h1 := hpE.length_le
          rw [List.length_drop, hEq25] at h1
          omega
        have hr2 : 2 ≤ r := by
          by_contra hlt
          rcases hpB with ⟨q, hq⟩
          have hdropr : (t.drop s).drop r = BEGIN_MARKER.drop r ++ q := by
            rw [← hq, List.drop_append_of_le_length (by omega)]
          have hEdropB : END_MARKER <+: BEGIN_MARKER.drop r := by
            apply pref_of_append_of_length_le (hdropr ▸ hpE)
            rw [List.length_drop]
            omega
          have hr01 : r = 0 ∨ r = 1 := by omega
          rcases hr01 with h0 | h0 <;> rw [h0] at hEdropB
          · exact absurd hEdropB (by decide)
          · exact absurd hEdropB (by decide)
        have hBblock : BEGIN_MARKER <+: (t.drop s).take (r + END_MARKER.length) :=
          pref_take hpB (by omega)
        have hlen_block : ((t.drop s).take (r + END_MARKER.length)).length =
            r + END_MARKER.length := by
          rw [List.length_take, hEq25]
          omega
        have hdrop_r : ((t.drop s).take (r + END_MARKER.length)).drop r = END_MARKER := by
          rw [List.drop_take]
          rcases hpE with ⟨q2, hq2⟩
          rw [← hq2]
          have h25 : r + END_MARKER.length - r = END_MARKER.length := by omega
          rw [h25, List.take_left]
        have htrim : rustTrim ((t.drop s).take (r + END_MARKER.length)) =
            (t.drop s).take (r + END_MARKER.length) := by
          apply rustTrim_eq_self
          · rintro c hc
            rcases hBblock with ⟨q3, hq3⟩
            rw [← hq3, begin_marker_head] at hc
            cases Option.some.inj hc
            decide
          · rintro c hc
            have hsplit : ((t.drop s).take (r + END_MARKER.length)).take r ++ END_MARKER =
                (t.drop s).take (r + END_MARKER.length) := by
              nth_rewrite 2 [← hdrop_r]
              exact List.take_append_drop r _
            rw [← hsplit, end_marker_last] at hc
            cases Option.some.inj hc
            decide
        have hbEq : b = (t.drop s).take (r + END_MARKER.length) := by
          rw [← hb, htrim]
        have hfb' : findSub b BEGIN_MARKER = some 0 := by
          rw [findSub_eq_some_iff]
          refine ⟨?_, fun j hj => absurd hj (Nat.not_lt_zero j)⟩
          rw [occursAt_zero_iff, isPrefixOf_eq_true_iff, hbEq]
          exact hBblock
        have hfe' : findSub (b.drop 0) END_MARKER = some r := by
          rw [List.drop_zero, findSub_eq_some_iff]
          constructor
          · rw [occursAt_iff, hbEq, hdrop_r]
          · rintro k hk hkOcc
            have hkOcc' : occursAt END_MARKER (t.drop s) k := by
              rw [occursAt_iff] at hkOcc ⊢
              apply pref_of_take (n := r + END_MARKER.length - k)
              rwa [← List.drop_take, ← hbEq]
            exact hminE k hk hkOcc'
        have hextract' : extract_pgp_message_block b = some b := by
          rw [extract_eq_of_found hfb' hfe']
          rw [List.drop_zero, hbEq]
          have htake : ((t.drop s).take (r + END_MARKER.length)).take
              (r + END_MARKER.length) = (t.drop s).take (r + END_MARKER.length) := by
            apply List.take_of_length_le
            rw [hlen_block]
          rw [htake, htrim]
        rw [← hblock, detect_eq_of_extract hextract', hid]

/-- The armored block contained in `sampleChatText`. -/
def sampleBlock : Str :=
  str "-----BEGIN PGP MESSAGE-----\nX\n-----END PGP MESSAGE-----"

theorem detect_pgp_idem_witness :
    detect_pgp sampleBlock = some (pgp_block_id sampleBlock, sampleBlock) :=
  detect_pgp_idem
    (detect_eq_of_extract
      (show extract_pgp_message_block sampleChatText = some sampleBlock from rfl))

/-! ### Decrypt-failure classification -/

/-- Claim C3: the classification of decrypt failures is total (every
diagnostic lands in exactly one of the three tiers, each carrying the raw
diagnostic), matches case-insensitively, and gives the no-secret-key tier
precedence over the malformed-framing tier. -/
theorem classify_decrypt_failure_spec (s : Str) :
    (classify_decrypt_failure s = DecryptError.NotForMe s
      ∨ classify_decrypt_failure s = DecryptError.InvalidMessage s
      ∨ classify_decrypt_failure s = DecryptError.GpgFailed s)
  ∧ ((str "no secret key" <:+: lowerStr s
        ∨ str "decryption failed: no secret key" <:+: lowerStr s
        ∨ str "secret key not available" <:+: lowerStr s) →
      classify_decrypt_failure s = DecryptError.NotForMe s)
  ∧ (¬ (str "no secret key" <:+: lowerStr s
        ∨ str "decryption failed: no secret key" <:+: lowerStr s
        ∨ str "secret key not available" <:+: lowerStr s) →
      (str "no valid openpgp data found" <:+: lowerStr s
        ∨ str "invalid armor header" <:+: lowerStr s
        ∨ str "crc error" <:+: lowerStr s
        ∨ str "unexpected end of file" <:+: lowerStr s
        ∨ str "bad armor" <:+: lowerStr s
        ∨ str "invalid packet" <:+: lowerStr s) →
      classify_decrypt_failure s = DecryptError.InvalidMessage s)
  ∧ (¬ (str "no secret key" <:+: lowerStr s
        ∨ str "decryption failed: no secret key" <:+: lowerStr s
        ∨ str "secret key not available" <:+: lowerStr s) →
      ¬ (str "no valid openpgp data found" <:+: lowerStr s
        ∨ str "invalid armor header" <:+: lowerStr s
        ∨ str "crc error" <:+: lowerStr s
        ∨ str "unexpected end of file" <:+: lowerStr s
        ∨ str "bad armor" <:+: lowerStr s
        ∨ str "invalid packet" <:+: lowerStr s) →
      classify_decrypt_failure s = DecryptError.GpgFailed s) := by
  have hsec : (containsSub (lowerStr s) (str "no secret key")
      || containsSub (lowerStr s) (str "decryption failed: no secret key")
      || containsSub (lowerStr s) (str "secret key not available")) = true ↔
      (str "no secret key" <:+: lowerStr s
        ∨ str "decryption failed: no secret key" <:+: lowerStr s
        ∨ str "secret key not available" <:+: lowerStr s) := by
    simp [Bool.or_eq_true, containsSub_iff_infix, or_assoc]
  have hfr : (containsSub (lowerStr s) (str "no valid openpgp data found")
      || containsSub (lowerStr s) (str "invalid armor header")
      || containsSub (lowerStr s) (str "crc error")
      || containsSub (lowerStr s) (str "unexpected end of file")
      || containsSub (lowerStr s) (str "bad armor")
      || containsSub (lowerStr s) (str "invalid packet")) = true ↔
      (str "no valid openpgp data found" <:+: lowerStr s
        ∨ str "invalid armor header" <:+: lowerStr s
        ∨ str "crc error" <:+: lowerStr s
        ∨ str "unexpected end of file" <:+: lowerStr s
        ∨ str "bad armor" <:+: lowerStr s
        ∨ str "invalid packet" <:+: lowerStr s) := by
    simp [Bool.or_eq_true, containsSub_iff_infix, or_assoc]
  unfold classify_decrypt_failure
  dsimp only
  split_ifs with h1 h2
  · refine ⟨Or.inl rfl, fun _ => rfl, fun hn _ => absurd (hsec.mp h1) hn,
      fun hn _ => absurd (hsec.mp h1) hn⟩
  · refine ⟨Or.inr (Or.inl rfl), fun hd => absurd (hsec.mpr hd) h1,
      fun _ _ => rfl, fun _ hn => absurd (hfr.mp h2) hn⟩
  · refine ⟨Or.inr (Or.inr rfl), fun hd => absurd (hsec.mpr hd) h1,
      fun _ hd => absurd (hfr.mpr hd) h2, fun _ _ => rfl⟩

/-- A diagnostic mentioning both a missing secret key and bad armor. -/
def mixedDiagnostic : Str := str "gpg: decryption failed: No secret key; Bad armor"

theorem classify_decrypt_failure_spec_witness :
    classify_decrypt_failure mixedDiagnostic = DecryptError.NotForMe mixedDiagnostic :=
  (classify_decrypt_failure_spec mixedDiagnostic).2.1 (Or.inl (by decide))

/-! ### Command-router equation lemmas -/

theorem handleTokens_pgp_decrypt (cfg : Config) (env : SessionEnv)
    (inbox : List Sighting) (w : World) (i : Str) :
    handleTokens [str "pgp", str "decrypt", i] cfg env inbox w =
      match inbox.find? (fun p => p.1 == i) with
      | none =>
        ⟨env, inbox, [], Except.error (str "No captured PGP message with id=" ++ i)⟩
      | some (_, block) =>
        let lines := match w.decrypt block with
          | Except.ok pt => [str "Decrypted (id=" ++ i ++ str ")", pt]
          | Except.error (DecryptError.NotForMe _) =>
            [str "Not for me (id=" ++ i ++ str ")"]
          | Except.error (DecryptError.InvalidMessage _) =>
            [str "Invalid PGP message (id=" ++ i ++ str ")"]
          | Except.error _ => [str "Decrypt error (id=" ++ i ++ str ")"]
        ⟨env, inbox, [ExtCall.decrypt block],
          Except.ok (CmdOutcome.Continue, lines, [])⟩ := rfl

theorem handleTokens_pgp_decrypt_last (cfg : Config) (env : SessionEnv)
    (inbox : List Sighting) (w : World) :
    handleTokens [str "pgp", str "decrypt-last"] cfg env inbox w =
      match inbox.getLast? with
      | none =>
        ⟨env, inbox, [],
          Except.ok (CmdOutcome.Continue,
            [render_warn (str "No PGP messages captured yet.")], [])⟩
      | some (id, block) =>
        let lines := match w.decrypt block with
          | Except.ok pt => [str "Decrypted (id=" ++ id ++ str ")", pt]
          | Except.error (DecryptError.NotForMe _) =>
            [str "Not for me (id=" ++ id ++ str ")"]
          | Except.error (DecryptError.InvalidMessage _) =>
            [str "Invalid PGP message (id=" ++ id ++ str ")"]
          | Except.error _ => [str "Decrypt error (id=" ++ id ++ str ")"]
        ⟨env, inbox, [ExtCall.decrypt block],
          Except.ok (CmdOutcome.Continue, lines, [])⟩ := rfl

/-- A concrete oracle with fixed responses, used for concrete runs. -/
def stubWorld : World :=
  ⟨Except.ok true, Except.ok (str "gpg (GnuPG) 2.4"), Except.ok [], Except.ok [],
   fun _ _ => Except.ok (str "CT"),
   fun _ => Except.error (DecryptError.GpgFailed (str "boom")),
   fun _ _ => Except.ok (), fun _ _ => Except.ok []⟩

/-- Claim C4 counterexample: `pgp decrypt-last` on an empty inbox does not
fail with an unknown-block error; it succeeds with a warning line and makes
no gateway call. -/
theorem pgp_decrypt_last_empty_succeeds :
    (handle_command (str "pgp decrypt-last") ⟨str "t", 7⟩ ⟨none, none⟩ [] stubWorld).res =
      Except.ok (CmdOutcome.Continue,
        [render_warn (str "No PGP messages captured yet.")], [])
    ∧ (handle_command (str "pgp decrypt-last") ⟨str "t", 7⟩ ⟨none, none⟩ []
        stubWorld).calls = [] :=
  ⟨rfl, rfl⟩

/-- Claim C4 (amended): `pgp decrypt` with an unknown fingerprint fails
with the unknown-block error and makes no gateway call; `pgp decrypt-last`
on an empty inbox succeeds with a warning line and makes no gateway call;
when a sighting is found, decrypt is invoked on its block and the inbox
and session overrides are left unchanged. -/
theorem decrypt_command_lookup (cfg : Config) (env : SessionEnv)
    (inbox : List Sighting) (w : World) (line i : Str) :
    ((splitWs line = [str "pgp", str "decrypt", i] →
       inbox.find? (fun p => p.1 == i) = none →
       (handle_command line cfg env inbox w).res =
           Except.error (str "No captured PGP message with id=" ++ i)
       ∧ (handle_command line cfg env inbox w).calls = []
       ∧ (handle_command line cfg env inbox w).inbox = inbox
       ∧ (handle_command line cfg env inbox w).env = env))
  ∧ (∀ i' block, splitWs line = [str "pgp", str "decrypt", i] →
       inbox.find? (fun p => p.1 == i) = some (i', block) →
       (handle_command line cfg env inbox w).calls = [ExtCall.decrypt block]
       ∧ (handle_command line cfg env inbox w).inbox = inbox
       ∧ (handle_command line cfg env inbox w).env = env)
  ∧ (splitWs line = [str "pgp", str "decrypt-last"] → inbox = [] →
       (handle_command line cfg env inbox w).res =
         Except.ok (CmdOutcome.Continue,
           [render_warn (str "No PGP messages captured yet.")], [])
       ∧ (handle_command line cfg env inbox w).calls = [])
  ∧ (∀ i' block, splitWs line = [str "pgp", str "decrypt-last"] →
       inbox.getLast? = some (i', block) →
       (handle_command line cfg env inbox w).calls = [ExtCall.decrypt block]
       ∧ (handle_command line cfg env inbox w).inbox = inbox
       ∧ (handle_command line cfg env inbox w).env = env) := by
  refine ⟨?_, ?_, ?_, ?_⟩
  · rintro hsplit hfind
    simp [handle_command, hsplit, handleTokens_pgp_decrypt, hfind]
  · rintro i' block hsplit hfind
    simp [handle_command, hsplit, handleTokens_pgp_decrypt, hfind]
  · rintro hsplit hempty
    subst hempty
    simp [handle_command, hsplit, handleTokens_pgp_decrypt_last]
  · rintro i' block hsplit hlast
    simp [handle_command, hsplit, handleTokens_pgp_decrypt_last, hlast]

theorem decrypt_command_lookup_witness :
    (handle_command (str "pgp decrypt deadbeef") ⟨str "t", 7⟩ ⟨none, none⟩ []
        stubWorld).res =
      Except.error (str "No captured PGP message with id=" ++ str "deadbeef")
    ∧ (handle_command (str "pgp decrypt deadbeef") ⟨str "t", 7⟩ ⟨none, none⟩ []
        stubWorld).calls = [] := by
  have h := (decrypt_command_lookup ⟨str "t", 7⟩ ⟨none, none⟩ [] stubWorld
    (str "pgp decrypt deadbeef") (str "deadbeef")).1 rfl rfl
  exact ⟨h.1, h.2.1⟩

theorem handleTokens_pgp_send_r (cfg : Config) (env : SessionEnv)
    (inbox : List Sighting) (w : World) (r m : Str) (ms : List Str) :
    handleTokens (str "pgp" :: str "send" :: str "-r" :: r :: m :: ms) cfg env inbox w =
      match w.encrypt_to_recipient r (joinSp (m :: ms)) with
      | Except.error e =>
        ⟨env, inbox, [ExtCall.encrypt_to_recipient r (joinSp (m :: ms))],
          Except.error e⟩
      | Except.ok armored =>
        match w.send_message (env.set_channel_id cfg) armored with
        | Except.error e =>
          ⟨env, inbox,
            [ExtCall.encrypt_to_recipient r (joinSp (m :: ms)),
             ExtCall.send_message (env.set_channel_id cfg) armored],
            Except.error e⟩
        | Except.ok _ =>
          ⟨env, inbox,
            [ExtCall.encrypt_to_recipient r (joinSp (m :: ms)),
             ExtCall.send_message (env.set_channel_id cfg) armored],
            Except.ok (CmdOutcome.Continue,
              [str "→ sent encrypted PGP message to " ++ r], [])⟩ := rfl

theorem handleTokens_pgp_send_cons (cfg : Config) (env : SessionEnv)
    (inbox : List Sighting) (w : World) (first : Str) (more : List Str) :
    handleTokens (str "pgp" :: str "send" :: first :: more) cfg env inbox w =
      (match (if first = str "-r" then
                match more with
                | [] => Except.error (str "Usage: pgp send -r <fpr|uid> <message...>")
                | r :: msg_parts =>
                  if msg_parts.isEmpty then
                    Except.error (str "Usage: pgp send -r <fpr|uid> <message...>")
                  else Except.ok (some r, msg_parts)
              else Except.ok (none, first :: more) :
                Except Str (Option Str × List Str)) with
       | Except.error e => ⟨env, inbox, [], Except.error e⟩
       | Except.ok (explicit, msg_parts) =>
         let recipient? := match explicit with
           | some r => some r
           | none => env.default_fpr
         match recipient? with
         | none =>
           ⟨env, inbox, [],
             Except.error
               (str "No exported recipient set. Use: export recipient <fpr|uid>")⟩
         | some recipient =>
           let msg := joinSp msg_parts
           match w.encrypt_to_recipient recipient msg with
           | Except.error e =>
             ⟨env, inbox, [ExtCall.encrypt_to_recipient recipient msg],
               Except.error e⟩
           | Except.ok armored =>
             match w.send_message (env.set_channel_id cfg) armored with
             | Except.error e =>
               ⟨env, inbox,
                 [ExtCall.encrypt_to_recipient recipient msg,
                  ExtCall.send_message (env.set_channel_id cfg) armored],
                 Except.error e⟩
             | Except.ok _ =>
               ⟨env, inbox,
                 [ExtCall.encrypt_to_recipient recipient msg,
                  ExtCall.send_message (env.set_channel_id cfg) armored],
                 Except.ok (CmdOutcome.Continue,
                   [str "→ sent encrypted PGP message to " ++ recipient], [])⟩) := rfl

/-- Claim C5: with the `-r` flag the next token is the explicit recipient
and the remaining tokens (space-joined) are the plaintext given to
encrypt, regardless of the session override; without the flag the
recipient falls back to the session override, and with no override set the
command fails with the missing-recipient error before any encrypt or
transport call. -/
theorem pgp_send_recipient_spec :
    (∀ (cfg : Config) (env : SessionEnv) (inbox : List Sighting) (w : World)
        (line r m : Str) (ms : List Str),
       splitWs line = str "pgp" :: str "send" :: str "-r" :: r :: m :: ms →
       ∃ rest, (handle_command line cfg env inbox w).calls =
         ExtCall.encrypt_to_recipient r (joinSp (m :: ms)) :: rest)
  ∧ (∀ (cfg : Config) (env : SessionEnv) (inbox : List Sighting) (w : World)
        (line first : Str) (more : List Str),
       splitWs line = str "pgp" :: str "send" :: first :: more →
       first ≠ str "-r" → env.default_fpr = none →
       (handle_command line cfg env inbox w).res =
         Except.error (str "No exported recipient set. Use: export recipient <fpr|uid>")
       ∧ (handle_command line cfg env inbox w).calls = [])
  ∧ (∀ (cfg : Config) (env : SessionEnv) (inbox : List Sighting) (w : World)
        (line first fpr : Str) (more : List Str),
       splitWs line = str "pgp" :: str "send" :: first :: more →
       first ≠ str "-r" → env.default_fpr = some fpr →
       ∃ rest, (handle_command line cfg env inbox w).calls =
         ExtCall.encrypt_to_recipient fpr (joinSp (first :: more)) :: rest) := by
  refine ⟨?_, ?_, ?_⟩
  · rintro cfg env inbox w line r m ms hsplit
    simp only [handle_command, hsplit, handleTokens_pgp_send_r]
    cases w.encrypt_to_recipient r (joinSp (m :: ms)) with
    | error e => exact ⟨[], rfl⟩
    | ok armored =>
      dsimp only
      cases w.send_message (env.set_channel_id cfg) armored with
      | error e => exact ⟨[ExtCall.send_message (env.set_channel_id cfg) armored], rfl⟩
      | ok u => exact ⟨[ExtCall.send_message (env.set_channel_id cfg) armored], rfl⟩
  · rintro cfg env inbox w line first more hsplit hfirst henv
    simp [handle_command, hsplit, handleTokens_pgp_send_cons, if_neg hfirst, henv]
  · rintro cfg env inbox w line first fpr more hsplit hfirst henv
    simp only [handle_command, hsplit, handleTokens_pgp_send_cons, if_neg hfirst, henv]
    cases w.encrypt_to_recipient fpr (joinSp (first :: more)) with
    | error e => exact ⟨[], rfl⟩
    | ok armored =>
      dsimp only
      cases w.send_message (env.set_channel_id cfg) armored with
      | error e => exact ⟨[ExtCall.send_message (env.set_channel_id cfg) armored], rfl⟩
      | ok u => exact ⟨[ExtCall.send_message (env.set_channel_id cfg) armored], rfl⟩

theorem pgp_send_recipient_spec_witness :
    (handle_command (str "pgp send -r alice secret text") ⟨str "t", 7⟩
        ⟨none, none⟩ [] stubWorld).calls.head? =
      some (ExtCall.encrypt_to_recipient (str "alice")
        (joinSp [str "secret", str "text"])) := by
  rcases pgp_send_recipient_spec.1 ⟨str "t", 7⟩ ⟨none, none⟩ [] stubWorld
    (str "pgp send -r alice secret text") (str "alice") (str "secret") [str "text"] rfl
    with ⟨rest, hrest⟩
  rw [hrest]
  rfl

theorem handleTokens_export_channel (cfg : Config) (env : SessionEnv)
    (inbox : List Sighting) (w : World) (v : Str) :
    handleTokens [str "export", str "channel", v] cfg env inbox w =
      match parse_u64 v with
      | none => ⟨env, inbox, [], Except.error (str "channel_id must be an integer")⟩
      | some ch =>
        ⟨{ env with channel_id := some ch }, inbox, [],
          Except.ok (CmdOutcome.Continue,
            [str "exported channel = " ++ natChars ch,
             str "Note: now listening/sending only in this channel."], [])⟩ := rfl

theorem handleTokens_export_unset_channel (cfg : Config) (env : SessionEnv)
    (inbox : List Sighting) (w : World) :
    handleTokens [str "export", str "unset", str "channel"] cfg env inbox w =
      ⟨{ env with channel_id := none }, inbox, [],
        Except.ok (CmdOutcome.Continue,
          [str "unset channel (back to env) " ++ natChars cfg.channel_id], [])⟩ := rfl

/-- Claim C6: setting the channel override makes every static default read
back as the override; unsetting it afterwards restores every static
default. -/
theorem session_channel_override_spec (cfg cfg₂ : Config) (env : SessionEnv)
    (inbox inbox₂ : List Sighting) (w w₂ : World) (line₁ line₂ v : Str) (c : Nat)
    (h₁ : splitWs line₁ = [str "export", str "channel", v])
    (hv : parse_u64 v = some c)
    (h₂ : splitWs line₂ = [str "export", str "unset", str "channel"]) :
    (∀ (d : Nat) (tok : Str),
       ((handle_command line₁ cfg env inbox w).env).set_channel_id ⟨tok, d⟩ = c)
    ∧ (∀ (d : Nat) (tok : Str),
       ((handle_command line₂ cfg₂ (handle_command line₁ cfg env inbox w).env
           inbox₂ w₂).env).set_channel_id ⟨tok, d⟩ = d) := by
  have e1 : (handle_command line₁ cfg env inbox w).env =
      { env with channel_id := some c } := by
    simp only [handle_command, h₁, handleTokens_export_channel, hv]
  have e2 : (handle_command line₂ cfg₂ (handle_command line₁ cfg env inbox w).env
      inbox₂ w₂).env = { env with channel_id := none } := by
    rw [e1]
    simp only [handle_command, h₂, handleTokens_export_unset_channel]
  rw [e2, e1]
  exact ⟨fun d tok => rfl, fun d tok => rfl⟩

theorem session_channel_override_spec_witness :
    ((handle_command (str "export channel 42") ⟨str "t", 7⟩ ⟨none, none⟩ []
        stubWorld).env).set_channel_id ⟨str "t", 9⟩ = 42
    ∧ ((handle_command (str "export unset channel") ⟨str "t", 7⟩
        ((handle_command (str "export channel 42") ⟨str "t", 7⟩ ⟨none, none⟩ []
          stubWorld).env) [] stubWorld).env).set_channel_id ⟨str "t", 9⟩ = 9 := by
  have h := session_channel_override_spec ⟨str "t", 7⟩ ⟨str "t", 7⟩ ⟨none, none⟩ [] []
    stubWorld stubWorld (str "export channel 42") (str "export unset channel")
    (str "42") 42 rfl rfl rfl
  exact ⟨h.1 9 (str "t"), h.2 9 (str "t")⟩

/-! ### Dispatch-loop theorems -/

/-- Claim C7: a chat event for a non-matching channel is discarded
silently and the loop stays running; a router error is rendered as a
single error line and the loop stays running; the loop transitions to
terminating exactly on closure of the command source or a Quit command
outcome. -/
theorem dispatch_loop_transitions (cfg : Config) (w : World) (env : SessionEnv)
    (inbox : List Sighting) :
    (∀ ev, ev.channel_id ≠ env.set_channel_id cfg →
       dispatchStep cfg w env inbox (LoopInput.chat ev) =
         ⟨env, inbox, [], [], LoopMode.Running⟩)
  ∧ (∀ line e, (handle_command line cfg env inbox w).res = Except.error e →
       (dispatchStep cfg w env inbox (LoopInput.cmd line)).ui =
         [UiEvent.Line (render_error e)]
       ∧ (dispatchStep cfg w env inbox (LoopInput.cmd line)).mode = LoopMode.Running)
  ∧ (∀ inp, (dispatchStep cfg w env inbox inp).mode = LoopMode.Terminating ↔
       (inp = LoopInput.cmdClosed ∨ ∃ line lns uis, inp = LoopInput.cmd line ∧
         (handle_command line cfg env inbox w).res =
           Except.ok (CmdOutcome.Quit, lns, uis))) := by
  refine ⟨?_, ?_, ?_⟩
  · rintro ev hne
    simp [dispatchStep, if_neg hne]
  · rintro line e hres
    simp [dispatchStep, hres]
  · rintro inp
    cases inp with
    | chat ev =>
      constructor
      · rintro h
        by_cases hc : ev.channel_id = env.set_channel_id cfg <;>
          simp [dispatchStep, hc] at h
      · rintro (h | ⟨line, lns, uis, h, _⟩) <;> cases h
    | chatClosed =>
      constructor
      · rintro h; cases h
      · rintro (h | ⟨line, lns, uis, h, _⟩) <;> cases h
    | cmd line =>
      constructor
      · rintro h
        cases hres : (handle_command line cfg env inbox w).res with
        | error e => simp [dispatchStep, hres] at h
        | ok out =>
          rcases out with ⟨outcome, lns, uis⟩
          cases outcome with
          | Continue => simp [dispatchStep, hres] at h
          | Quit => exact Or.inr ⟨line, lns, uis, rfl, hres⟩
      · rintro (h | ⟨line', lns, uis, hline, hres⟩)
        · cases h
        · cases hline
          simp [dispatchStep, hres]
    | cmdClosed =>
      constructor
      · rintro _; exact Or.inl rfl
      · rintro _; rfl

/-- An inbound chat event on a non-matching channel, used to exercise the
dispatch-loop claim on a concrete input. -/
def offChannelEvent : ChatEvent := ⟨8, 1, str "alice", str "hello"⟩

theorem dispatch_loop_transitions_witness :
    dispatchStep ⟨str "t", 7⟩ stubWorld ⟨none, none⟩ []
        (LoopInput.chat offChannelEvent) =
      ⟨⟨none, none⟩, [], [], [], LoopMode.Running⟩ :=
  (dispatch_loop_transitions ⟨str "t", 7⟩ stubWorld ⟨none, none⟩ []).1
    offChannelEvent (by decide)

/-- Claim C8: processing an inbound chat event (or the chat stream going
idle) never mutates the session overrides; only the inbox cache may
change on the inbound path. -/
theorem inbound_path_preserves_overrides (cfg : Config) (w : World)
    (env : SessionEnv) (inbox : List Sighting) :
    (∀ ev, (dispatchStep cfg w env inbox (LoopInput.chat ev)).env = env)
  ∧ (dispatchStep cfg w env inbox LoopInput.chatClosed).env = env := by
  refine ⟨?_, rfl⟩
  rintro ev
  by_cases hc : ev.channel_id = env.set_channel_id cfg <;> simp [dispatchStep, hc]

/-! ### Fingerprint-listing lemmas -/

theorem strLe_total : ∀ a b : Str, strLe a b = true ∨ strLe b a = true := by
  intro a
  induction a with
  | nil => intro b; exact Or.inl rfl
  | cons x xs ih =>
    intro b
    cases b with
    | nil => exact Or.inr rfl
    | cons y ys =>
      by_cases hxy : x < y
      · left; simp [strLe, hxy]
      · by_cases heq : x = y
        · subst heq
          rcases ih ys with h | h
          · left; simp [strLe, lt_irrefl, h]
          · right; simp [strLe, lt_irrefl, h]
        · right
          have hyx : y < x := by
            rcases lt_trichotomy x y with h | h | h
            · exact absurd h hxy
            · exact absurd h heq
            · exact h
          simp [strLe, hyx]

theorem strLe_trans :
    ∀ a b c : Str, strLe a b = true → strLe b c = true → strLe a c = true := by
  intro a
  induction a with
  | nil => intro b c _ _; rfl
  | cons x xs ih =>
    intro b c hab hbc
    cases b with
    | nil => simp [strLe] at hab
    | cons y ys =>
      cases c with
      | nil => simp [strLe] at hbc
      | cons z zs =>
        by_cases hxy : x < y
        · by_cases hyz : y < z
          · simp [strLe, lt_trans hxy hyz]
          · by_cases hyz' : y = z
            · subst hyz'; simp [strLe, hxy]
            · simp [strLe, hyz, hyz'] at hbc
        · by_cases hxy' : x = y
          · subst hxy'
            simp only [strLe, lt_irrefl, if_false, if_pos rfl] at hab
            by_cases hyz : x < z
            · simp [strLe, hyz]
            · by_cases hyz' : x = z
              · subst hyz'
                simp only [strLe, lt_irrefl, if_false, if_pos rfl] at hbc ⊢
                exact ih ys zs hab hbc
              · simp [strLe, hyz, hyz'] at hbc
          · simp [strLe, hxy, hxy'] at hab

theorem strLe_antisymm :
    ∀ a b : Str, strLe a b = true → strLe b a = true → a = b := by
  intro a
  induction a with
  | nil =>
    intro b _ hba
    cases b with
    | nil => rfl
    | cons y ys => simp [strLe] at hba
  | cons x xs ih =>
    intro b hab hba
    cases b with
    | nil => simp [strLe] at hab
    | cons y ys =>
      by_cases hxy : x < y
      · have h1 : ¬ y < x := lt_asymm hxy
        have h2 : ¬ y = x := fun he => absurd (he ▸ hxy) (lt_irrefl x)
        simp [strLe, h1, h2] at hba
      · by_cases hxy' : x = y
        · subst hxy'
          simp only [strLe, lt_irrefl, if_false, if_pos rfl] at hab hba
          rw [ih ys hab hba]
        · simp [strLe, hxy, hxy'] at hab

instance : IsTotal Str strLeP := ⟨strLe_total⟩

instance : IsTrans Str strLeP := ⟨strLe_trans⟩

instance : IsAntisymm Str strLeP := ⟨strLe_antisymm⟩

theorem mem_dedupConsec : ∀ (l : List Str) (a : Str), a ∈ dedupConsec l ↔ a ∈ l := by
  intro l
  induction l with
  | nil => intro a; exact Iff.rfl
  | cons x rest ih =>
    cases rest with
    | nil => intro a; exact Iff.rfl
    | cons y r =>
      intro a
      by_cases hxy : x = y
      · rw [show dedupConsec (x :: y :: r) = dedupConsec (y :: r) from by
          simp [dedupConsec, hxy]]
        rw [ih a]
        subst hxy
        simp [List.mem_cons]
      · rw [show dedupConsec (x :: y :: r) = x :: dedupConsec (y :: r) from by
          simp [dedupConsec, hxy]]
        simp [List.mem_cons, ih a]

theorem dedupConsec_pairwise :
    ∀ l : List Str, l.Pairwise strLeP →
      (dedupConsec l).Pairwise (fun a b => strLeP a b ∧ a ≠ b) := by
  intro l
  induction l with
  | nil => intro _; exact List.Pairwise.nil
  | cons x rest ih =>
    cases rest with
    | nil => intro _; simp [dedupConsec]
    | cons y r =>
      intro hp
      rcases List.pairwise_cons.mp hp with ⟨hx, hrest⟩
      by_cases hxy : x = y
      · rw [show dedupConsec (x :: y :: r) = dedupConsec (y :: r) from by
          simp [dedupConsec, hxy]]
        exact ih hrest
      · rw [show dedupConsec (x :: y :: r) = x :: dedupConsec (y :: r) from by
          simp [dedupConsec, hxy]]
        refine List.pairwise_cons.mpr ⟨?_, ih hrest⟩
        rintro b hb
        have hbmem : b ∈ y :: r := (mem_dedupConsec (y :: r) b).mp hb
        refine ⟨hx b hbmem, ?_⟩
        rintro hab
        rcases List.mem_cons.mp hbmem with h | h
        · exact hxy (hab.trans h)
        · have hyb : strLeP y b := (List.pairwise_cons.mp hrest).1 b h
          rw [← hab] at hyb
          have hxy2 : strLeP x y := hx y (List.mem_cons_self y r)
          exact hxy (strLe_antisymm x y hxy2 hyb)

/-- Claim C10: the parsed secret-key fingerprint list is sorted and
duplicate-free, and depends only on the set of fingerprints extracted from
the colon-format listing (order and multiplicity of `fpr:` lines do not
matter). -/
theorem parse_colons_fprs_canonical (colons : Str) :
    List.Sorted strLeP (parse_colons_fprs colons)
  ∧ (parse_colons_fprs colons).Nodup
  ∧ ∀ colons₂ : Str, (∀ a, a ∈ extractFprs colons ↔ a ∈ extractFprs colons₂) →
      parse_colons_fprs colons = parse_colons_fprs colons₂ := by
  have key : ∀ cs : Str,
      (parse_colons_fprs cs).Pairwise (fun a b => strLeP a b ∧ a ≠ b) := by
    intro cs
    exact dedupConsec_pairwise _ (List.sorted_insertionSort strLeP (extractFprs cs))
  have hsorted : ∀ cs, List.Sorted strLeP (parse_colons_fprs cs) := fun cs =>
    (key cs).imp (fun h => h.1)
  have hnodup : ∀ cs, (parse_colons_fprs cs).Nodup := fun cs =>
    (key cs).imp (fun h => h.2)
  refine ⟨hsorted colons, hnodup colons, ?_⟩
  rintro colons₂ hmem
  have hm : ∀ a, a ∈ parse_colons_fprs colons ↔ a ∈ parse_colons_fprs colons₂ := by
    rintro a
    rw [parse_colons_fprs, parse_colons_fprs, mem_dedupConsec, mem_dedupConsec]
    rw [List.Perm.mem_iff (List.perm_insertionSort strLeP (extractFprs colons)),
        List.Perm.mem_iff (List.perm_insertionSort strLeP (extractFprs colons₂))]
    exact hmem a
  have hperm : List.Perm (parse_colons_fprs colons) (parse_colons_fprs colons₂) :=
    (List.perm_ext_iff_of_nodup (hnodup colons) (hnodup colons₂)).mpr hm
  exact List.eq_of_perm_of_sorted hperm (hsorted colons) (hsorted colons₂)

/-- A colon-format listing with two `fpr:` lines. -/
def colonsA : Str := str "fpr:::::::::BBB:\nfpr:::::::::AAA:\n"

/-- A colon-format listing with the same fingerprints in another order and
with a duplicate. -/
def colonsB : Str :=
  str "fpr:::::::::AAA:\nfpr:::::::::BBB:\nfpr:::::::::AAA:\n"

theorem parse_colons_fprs_canonical_witness :
    parse_colons_fprs colonsA = parse_colons_fprs colonsB := by
  refine (parse_colons_fprs_canonical colonsA).2.2 colonsB ?_
  have e1 : extractFprs colonsA = [str "BBB", str "AAA"] := rfl
  have e2 : extractFprs colonsB = [str "AAA", str "BBB", str "AAA"] := rfl
  rintro a
  rw [e1, e2]
  simp only [List.mem_cons, List.not_mem_nil, or_false]
  tauto
